import Mathlib

/-!
Verification of the dynamic feature registry / feature manager of the
rn-project-demo repository.

The development shallowly embeds two source components:

* `src/src/core/di/featureRegistry.ts` — the `FeatureRegistry` class: an
  insertion-ordered map from feature name to `FeatureMetadata`, with
  first-wins `register`, `get`, `has`, `getAll`, `getAllMetadata`,
  `getByTag` and `clear`.
* `src/unnamed/part_017` (the feature manager `featureManager.ts`) —
  `ensureFeatureLoaded`, `loadFeature`, `preloadFeatures`,
  `isFeatureLoaded`, `getLoadedFeatures`, `getRegisteredFeatures`,
  `getFeatureStats`, `resetFeatureManager`.

JavaScript `Map`s are embedded as insertion-ordered association lists and
`Set`s as lists without duplicates.  A feature's `loader` closure is
represented by an opaque numeric reference (reference identity becomes
numeric equality); the behaviour of invoking a loader is supplied by an
environment mapping a feature name and an invocation index to the outcome
of that invocation (loader rejection, resolving to a module without a
callable `register`, resolving to a module whose `register` throws, or
success).

The manager is embedded twice, at two levels of abstraction:

* a big-step, fuel-indexed interpreter of a single `ensureFeatureLoaded`
  (or `preloadFeatures`) call running to completion, instrumented with an
  event trace recording each loader invocation, each `register`
  invocation and each addition to `loadedFeatures`, together with
  snapshots of `loadedFeatures`/`loadingFeatures` at those instants; and
* a small-step interleaving model of N concurrent `ensureFeatureLoaded`
  callers for one registered dependency-free feature, faithful to the
  single-threaded event-loop semantics: the atomic blocks are exactly the
  synchronous runs between `await` suspension points of the source.
-/

/-! ## Registry model (`featureRegistry.ts`) -/

/-- Embeds the `FeatureMetadata` interface.  The `loader` closure is
represented by an opaque reference id; optional fields use `Option`. -/
structure FeatureMetadata where
  name : String
  description : Option String := none
  loader : Nat
  dependencies : Option (List String) := none
  version : Option String := none
  tags : Option (List String) := none
deriving DecidableEq, Repr

/-- Embeds the private `features = new Map<string, FeatureMetadata>()` of the
`FeatureRegistry` class as an insertion-ordered association list. -/
structure FeatureRegistry where
  features : List (String × FeatureMetadata)
deriving DecidableEq, Repr

namespace FeatureRegistry

/-- The empty registry (initial state of the singleton instance). -/
def empty : FeatureRegistry := ⟨[]⟩

/-- `has(name)`: `this.features.has(name)`. -/
def has (r : FeatureRegistry) (name : String) : Bool :=
  (r.features.find? (fun p => p.1 = name)).isSome

/-- `get(name)`: `this.features.get(name)`; returns `none` when unknown,
never throws. -/
def get (r : FeatureRegistry) (name : String) : Option FeatureMetadata :=
  (r.features.find? (fun p => p.1 = name)).map (·.2)

/-- `register(metadata)`: if the name is already present the call is a
no-op (a console warning is emitted, no error is raised); otherwise the
entry is appended, preserving insertion order. -/
def register (r : FeatureRegistry) (metadata : FeatureMetadata) : FeatureRegistry :=
  if r.has metadata.name then r
  else ⟨r.features ++ [(metadata.name, metadata)]⟩

/-- `getAll()`: `Array.from(this.features.keys())`. -/
def getAll (r : FeatureRegistry) : List String :=
  r.features.map (·.1)

/-- `getAllMetadata()`: `Array.from(this.features.values())`. -/
def getAllMetadata (r : FeatureRegistry) : List FeatureMetadata :=
  r.features.map (·.2)

/-- `getByTag(tag)`: filters `getAllMetadata()` by `f.tags?.includes(tag)`;
a missing `tags` field makes the optional chain `undefined`, which is
falsy, so such descriptors are excluded without an error. -/
def getByTag (r : FeatureRegistry) (tag : String) : List FeatureMetadata :=
  r.getAllMetadata.filter (fun f =>
    match f.tags with
    | some ts => ts.contains tag
    | none => false)

/-- `clear()`: empties the catalog (test-only). -/
def clear (_r : FeatureRegistry) : FeatureRegistry := ⟨[]⟩

end FeatureRegistry

/-- Claim C8: registry registration is idempotent with first-wins
semantics: registering a name that is already present is a no-op that
raises no error (the embedding's `register` is a total function) and
preserves the original descriptor, so `get` afterwards returns the first
descriptor, with its `loader` reference identity-equal to the original. -/
theorem featureRegistry_register_first_wins
    (r : FeatureRegistry) (m₁ m₂ : FeatureMetadata)
    (hfresh : r.has m₁.name = false) (hname : m₂.name = m₁.name) :
    (r.register m₁).register m₂ = r.register m₁ ∧
    ((r.register m₁).register m₂).get m₁.name = some m₁ ∧
    (((r.register m₁).register m₂).get m₁.name).map (·.loader) = some m₁.loader := by
  have hnone : r.features.find? (fun p => p.1 = m₁.name) = none := by
    simp only [FeatureRegistry.has] at hfresh
    cases h : r.features.find? (fun p => p.1 = m₁.name) with
    | none => rfl
    | some p => rw [h] at hfresh; simp at hfresh
  have hreg : r.register m₁ = ⟨r.features ++ [(m₁.name, m₁)]⟩ := by
    simp [FeatureRegistry.register, FeatureRegistry.has, hnone]
  have hfind : (r.features ++ [(m₁.name, m₁)]).find? (fun p => p.1 = m₁.name)
      = some (m₁.name, m₁) := by
    rw [List.find?_append, hnone]; simp
  have hget : (r.register m₁).get m₁.name = some m₁ := by
    rw [hreg]
    simp [FeatureRegistry.get, hfind]
  have hhas : (r.register m₁).has m₂.name = true := by
    rw [hname, hreg]
    simp [FeatureRegistry.has, hfind]
  have hnoopAux : ∀ r' : FeatureRegistry, r'.has m₂.name = true → r'.register m₂ = r' := by
    intro r' h
    simp [FeatureRegistry.register, h]
  have hnoop : (r.register m₁).register m₂ = r.register m₁ := hnoopAux _ hhas
  exact ⟨hnoop, by rw [hnoop]; exact hget, by rw [hnoop, hget]; rfl⟩

/-- Claim C8 witness: a concrete registry, two descriptors sharing the name
`"user"` but with different loader references; the second registration is a
no-op and `get` keeps the first loader. -/
theorem featureRegistry_register_first_wins_witness :
    (FeatureRegistry.empty.has "user" = false ∧
      ({ name := "user", loader := 2 } : FeatureMetadata).name = "user") ∧
    ((FeatureRegistry.empty.register { name := "user", loader := 1 }).register
        { name := "user", loader := 2 } =
      FeatureRegistry.empty.register { name := "user", loader := 1 } ∧
    ((FeatureRegistry.empty.register { name := "user", loader := 1 }).register
        { name := "user", loader := 2 }).get "user" =
      some { name := "user", loader := 1 } ∧
    (((FeatureRegistry.empty.register { name := "user", loader := 1 }).register
        { name := "user", loader := 2 }).get "user").map (·.loader) = some 1) :=
  ⟨⟨by decide, by decide⟩,
    featureRegistry_register_first_wins FeatureRegistry.empty
      { name := "user", loader := 1 } { name := "user", loader := 2 }
      (by decide) (by decide)⟩

/-- Claim C9: `getByTag tag` returns exactly the registered descriptors
whose `tags` list contains `tag`; a descriptor with no `tags` field is
excluded without any error (the embedding is a total function, so no throw
is possible). -/
theorem featureRegistry_getByTag_spec (r : FeatureRegistry) (tag : String)
    (m : FeatureMetadata) :
    m ∈ r.getByTag tag ↔
      m ∈ r.getAllMetadata ∧ ∃ ts, m.tags = some ts ∧ tag ∈ ts := by
  simp only [FeatureRegistry.getByTag, List.mem_filter]
  constructor
  · rintro ⟨hmem, hf⟩
    refine ⟨hmem, ?_⟩
    rcases h : m.tags with _ | ts
    · rw [h] at hf; simp at hf
    · rw [h] at hf
      exact ⟨ts, rfl, List.elem_iff.mp hf⟩
  · rintro ⟨hmem, ts, hts, htag⟩
    refine ⟨hmem, ?_⟩
    rw [hts]
    exact List.elem_iff.mpr htag

/-! ## Feature manager model (`featureManager.ts`), big-step semantics

A single top-level `ensureFeatureLoaded`/`preloadFeatures` call is run to
completion by a fuel-indexed interpreter.  `Promise.all` over the
dependency list is sequentialised in list order: every dependency's load
is executed (as in the source, where `map(ensureFeatureLoaded)` starts all
of them regardless of failures) and the first rejection in list order is
the aggregate outcome (in run-to-completion scheduling the list-order
first failure is also the temporally first rejection).  The interpreter
returns `none` for runs the source never completes: exhausted fuel, or a
recursive `ensureFeatureLoaded` on a name that is already in
`loadingFeatures` (in a single top-level call this happens exactly on a
dependency cycle, where the source deadlocks awaiting its own in-flight
promise or recurses forever, depending on interleaving). -/

/-- Outcome of one invocation of a feature's `loader()` closure, together
with the behaviour of the resolved module's `register` function.  This is
the environment's description of the world outside the manager. -/
inductive LoaderBehavior
  /-- `loader()` rejects; the payload identifies the rejection reason. -/
  | rejects (code : Nat)
  /-- `loader()` resolves to a value without a callable `register`. -/
  | malformed
  /-- `loader()` resolves to a well-formed module whose `register(container)`
  throws; the payload identifies the thrown error. -/
  | moduleThrows (code : Nat)
  /-- `loader()` resolves to a well-formed module and `register(container)`
  returns normally. -/
  | moduleOk
deriving DecidableEq, Repr

/-- Environment: for each feature name and zero-based invocation index of
its `loader()`, the behaviour of that invocation. -/
def LoaderEnv := String → Nat → LoaderBehavior

/-- The errors a load can reject with, mirroring the `throw` sites of
`loadFeature` plus opaque loader rejections and `register` exceptions. -/
inductive LoadError
  /-- The `!metadata` throw: the name is not in the registry; carries the
  `available` list enumerated in the message (`featureRegistry.getAll()`). -/
  | unknownFeature (name : String) (available : List String)
  /-- The module-shape throw: the resolved module lacks a callable
  `register`. -/
  | malformedModule (name : String)
  /-- The loader's own rejection, propagated verbatim. -/
  | loaderRejected (name : String) (code : Nat)
  /-- The exception thrown by the module's `register`, propagated verbatim. -/
  | registerThrew (name : String) (code : Nat)
deriving DecidableEq, Repr

/-- The `message` of each error, mirroring the source's `Error` strings for
the two errors `loadFeature` itself constructs; for propagated loader or
`register` errors the message is the underlying error's own (opaque). -/
def loadErrorMessage : LoadError → String
  | .unknownFeature name available =>
      "[FeatureManager] Feature \"" ++ name ++ "\" not found in registry.\n" ++
      "Available features: " ++
      (if available.length > 0 then String.intercalate ", " available else "none") ++
      "\n" ++ "Did you forget to import the feature in App.tsx?"
  | .malformedModule name =>
      "[FeatureManager] Feature \"" ++ name ++ "\" module is invalid. " ++
      "It must export an object with a 'register' function."
  | .loaderRejected name code => "loader rejection " ++ name ++ " " ++ toString code
  | .registerThrew name code => "register exception " ++ name ++ " " ++ toString code

/-- Result of an awaited load: resolution or rejection with an error. -/
inductive LoadResult
  | ok
  | error (e : LoadError)
deriving DecidableEq, Repr

/-- Instrumentation: the observable instants of a run.  Each event records
snapshots of `loadedFeatures` and `loadingFeatures`.  `loaderInvoked` and
`registerInvoked` record the state while the corresponding call is made;
`addedLoaded` records the state immediately before
`loadedFeatures.add(name)` runs (the add and the `finally` delete form one
synchronous block in the source). -/
inductive LoadEvent
  | loaderInvoked (name : String) (loadedSnap loadingSnap : List String)
  | registerInvoked (name : String) (loadedSnap loadingSnap : List String)
  | addedLoaded (name : String) (loadedSnap loadingSnap : List String)
deriving DecidableEq, Repr

/-- The feature name an event concerns. -/
def LoadEvent.fname : LoadEvent → String
  | .loaderInvoked n _ _ => n
  | .registerInvoked n _ _ => n
  | .addedLoaded n _ _ => n

/-- The `loadedFeatures` snapshot of an event. -/
def LoadEvent.loadedSnap : LoadEvent → List String
  | .loaderInvoked _ l _ => l
  | .registerInvoked _ l _ => l
  | .addedLoaded _ l _ => l

/-- The `loadingFeatures` snapshot of an event. -/
def LoadEvent.loadingSnap : LoadEvent → List String
  | .loaderInvoked _ _ l => l
  | .registerInvoked _ _ l => l
  | .addedLoaded _ _ l => l

/-- The mutable module-level state of the feature manager:
`loadedFeatures` (a `Set<string>`) and `loadingFeatures` (the key set of
the `Map<string, Promise<void>>`; the promise values are implicit in the
big-step semantics), plus instrumentation: the multiset of `loader()`
invocations, the multiset of `register()` invocations, and the event
trace. -/
structure LState where
  loadedFeatures : List String
  loadingFeatures : List String
  loaderCalls : List String
  registerCalls : List String
  events : List LoadEvent
deriving DecidableEq, Repr

/-- The state at module initialisation: everything empty. -/
def LState.init : LState := ⟨[], [], [], [], []⟩

/-- Embeds lines 98-113 of `loadFeature`: invoke `metadata.loader()`
(recording the invocation and passing the number of prior invocations of
this feature's loader to the environment), validate that the resolved
module has a callable `register`, and call `register(container)`
synchronously (recording the invocation); the four environment behaviours
produce the loader rejection, the malformed-module error, the propagated
`register` exception, or success. -/
def importAndRegister (env : LoaderEnv) (featureName : String) (s₁ : LState) :
    LState × LoadResult :=
  let k := s₁.loaderCalls.count featureName
  let s₂ : LState := { s₁ with
    loaderCalls := s₁.loaderCalls ++ [featureName],
    events := s₁.events ++
      [.loaderInvoked featureName s₁.loadedFeatures s₁.loadingFeatures] }
  match env featureName k with
  | .rejects c => (s₂, .error (.loaderRejected featureName c))
  | .malformed => (s₂, .error (.malformedModule featureName))
  | .moduleThrows c =>
    ({ s₂ with
         registerCalls := s₂.registerCalls ++ [featureName],
         events := s₂.events ++
           [.registerInvoked featureName s₂.loadedFeatures s₂.loadingFeatures] },
     .error (.registerThrew featureName c))
  | .moduleOk =>
    ({ s₂ with
         registerCalls := s₂.registerCalls ++ [featureName],
         events := s₂.events ++
           [.registerInvoked featureName s₂.loadedFeatures s₂.loadingFeatures] },
     .ok)

/-- Aggregation of a `Promise.all` result list: the first rejection in
settle order, or resolution when all resolved. -/
def firstError : List LoadResult → LoadResult
  | [] => .ok
  | .ok :: rs => firstError rs
  | .error e :: _ => .error e

mutual

/-- Embeds `ensureFeatureLoaded(featureName)` (lines 43-68): fast path when
already loaded; when an in-flight load exists the caller joins it — within
one sequential top-level call this only happens on a dependency cycle,
where the source never settles, hence `none`; otherwise a load episode:
the name is tracked in `loadingFeatures` before any suspension, the
episode runs, on success the name is added to `loadedFeatures`, and in all
settled cases the `finally` removes the `loadingFeatures` entry. -/
def ensureFeatureLoaded (env : LoaderEnv) (reg : FeatureRegistry) :
    Nat → String → LState → Option (LState × LoadResult)
  | 0, _, _ => none
  | fuel + 1, featureName, s =>
    if s.loadedFeatures.contains featureName then some (s, .ok)
    else if s.loadingFeatures.contains featureName then none
    else
      let s₀ : LState := { s with loadingFeatures := featureName :: s.loadingFeatures }
      match loadFeature env reg fuel featureName s₀ with
      | none => none
      | some (s₁, .ok) =>
        some ({ s₁ with
                  loadedFeatures := featureName :: s₁.loadedFeatures,
                  loadingFeatures := s₁.loadingFeatures.erase featureName,
                  events := s₁.events ++
                    [.addedLoaded featureName s₁.loadedFeatures s₁.loadingFeatures] },
              .ok)
      | some (s₁, .error e) =>
        some ({ s₁ with loadingFeatures := s₁.loadingFeatures.erase featureName },
              .error e)

/-- Embeds `loadFeature(featureName)` (lines 74-113): registry lookup with
the unknown-feature throw, dependency loading via `Promise.all` when the
dependency list is non-empty, the `loader()` invocation, the module-shape
validation, and the synchronous `register(container)` call. -/
def loadFeature (env : LoaderEnv) (reg : FeatureRegistry) :
    Nat → String → LState → Option (LState × LoadResult)
  | 0, _, _ => none
  | fuel + 1, featureName, s =>
    match reg.get featureName with
    | none => some (s, .error (.unknownFeature featureName reg.getAll))
    | some metadata =>
      let deps := metadata.dependencies.getD []
      let depsStep : Option (LState × LoadResult) :=
        if deps.length > 0 then
          match ensureAllFeatures env reg fuel deps s with
          | none => none
          | some (s₁, rs) => some (s₁, firstError rs)
        else some (s, .ok)
      match depsStep with
      | none => none
      | some (s₁, .error e) => some (s₁, .error e)
      | some (s₁, .ok) => some (importAndRegister env featureName s₁)

/-- Embeds `Promise.all(names.map(ensureFeatureLoaded))` in
run-to-completion order: every listed name's `ensureFeatureLoaded` is
executed (later loads run even when an earlier one failed, as in the
source where `map` starts all of them), and the per-name results are
collected in order. -/
def ensureAllFeatures (env : LoaderEnv) (reg : FeatureRegistry) :
    Nat → List String → LState → Option (LState × List LoadResult)
  | _, [], s => some (s, [])
  | 0, _ :: _, _ => none
  | fuel + 1, n :: rest, s =>
    match ensureFeatureLoaded env reg fuel n s with
    | none => none
    | some (s₁, r) =>
      match ensureAllFeatures env reg fuel rest s₁ with
      | none => none
      | some (s₂, rs) => some (s₂, r :: rs)

end

/-- Embeds `preloadFeatures(featureNames)` (lines 137-142):
`Promise.all(featureNames.map(ensureFeatureLoaded))`. -/
def preloadFeatures (env : LoaderEnv) (reg : FeatureRegistry)
    (fuel : Nat) (featureNames : List String) (s : LState) :
    Option (LState × LoadResult) :=
  (ensureAllFeatures env reg fuel featureNames s).map
    (fun p => (p.1, firstError p.2))

/-- Embeds `isFeatureLoaded(featureName)` (lines 123-125). -/
def isFeatureLoaded (s : LState) (featureName : String) : Bool :=
  s.loadedFeatures.contains featureName

/-- Embeds `getLoadedFeatures()` (lines 148-150):
`Array.from(loadedFeatures)`. -/
def getLoadedFeatures (s : LState) : List String :=
  s.loadedFeatures

/-- Embeds `getRegisteredFeatures()` (lines 156-158):
`featureRegistry.getAll()`. -/
def getRegisteredFeatures (reg : FeatureRegistry) : List String :=
  reg.getAll

/-- Embeds `getFeatureMetadata(featureName)` (lines 164-166). -/
def getFeatureMetadata (reg : FeatureRegistry) (featureName : String) :
    Option FeatureMetadata :=
  reg.get featureName

/-- The record returned by `getFeatureStats()`. -/
structure FeatureStats where
  registered : Nat
  loaded : Nat
  notLoaded : List String
  registeredList : List String
  loadedList : List String
deriving DecidableEq, Repr

/-- Embeds `getFeatureStats()` (lines 172-183): a pure read of the registry
and the loaded set; it takes the state only as input and mutates nothing. -/
def getFeatureStats (reg : FeatureRegistry) (s : LState) : FeatureStats :=
  let registered := getRegisteredFeatures reg
  let loaded := getLoadedFeatures s
  { registered := registered.length
    loaded := loaded.length
    notLoaded := registered.filter (fun f => !(loaded.contains f))
    registeredList := registered
    loadedList := loaded }

/-- Embeds `resetFeatureManager()` (lines 189-193): clears both tracking
collections (test-only). -/
def resetFeatureManager (s : LState) : LState :=
  { s with loadedFeatures := [], loadingFeatures := [] }

/-! ## Dependency notions and run invariants -/

/-- The declared direct dependencies of a registered feature (empty for an
unregistered name or an omitted `dependencies` field). -/
def directDeps (reg : FeatureRegistry) (n : String) : List String :=
  match reg.get n with
  | some m => m.dependencies.getD []
  | none => []

/-- Transitive dependency relation generated by `directDeps`. -/
inductive DependsOn (reg : FeatureRegistry) : String → String → Prop
  | direct {n d} : d ∈ directDeps reg n → DependsOn reg n d
  | tail {n m d} : DependsOn reg n m → d ∈ directDeps reg m → DependsOn reg n d

/-- A loaded set is dependency-closed: every member's declared direct
dependencies are members too. -/
def DepsClosed (reg : FeatureRegistry) (l : List String) : Prop :=
  ∀ m ∈ l, ∀ d ∈ directDeps reg m, d ∈ l

instance (reg : FeatureRegistry) (l : List String) : Decidable (DepsClosed reg l) := by
  unfold DepsClosed
  infer_instance

/-- In a dependency-closed set that contains the direct dependencies of
`n`, every transitive dependency of `n` is present. -/
theorem DependsOn.mem_of_closed {reg : FeatureRegistry} {l : List String} {n d : String}
    (hdir : ∀ x ∈ directDeps reg n, x ∈ l) (hcl : DepsClosed reg l)
    (h : DependsOn reg n d) : d ∈ l := by
  induction h with
  | direct hd => exact hdir _ hd
  | tail _ hd ih => exact hcl _ ih _ hd

/-- Well-formedness of an event: at its instant the direct dependencies of
its feature are loaded, the loaded snapshot is dependency-closed, and no
name is simultaneously in both snapshots. -/
def GoodEvent (reg : FeatureRegistry) (e : LoadEvent) : Prop :=
  (∀ d ∈ directDeps reg e.fname, d ∈ e.loadedSnap) ∧
  DepsClosed reg e.loadedSnap ∧
  (∀ x ∈ e.loadingSnap, x ∉ e.loadedSnap)

instance (reg : FeatureRegistry) (e : LoadEvent) : Decidable (GoodEvent reg e) := by
  unfold GoodEvent
  infer_instance

/-- State invariant of the manager: `loadingFeatures` and `loadedFeatures`
are disjoint, the loaded set is dependency-closed, and every recorded
event is well-formed. -/
def MgrInv (reg : FeatureRegistry) (s : LState) : Prop :=
  (∀ x ∈ s.loadingFeatures, x ∉ s.loadedFeatures) ∧
  DepsClosed reg s.loadedFeatures ∧
  (∀ e ∈ s.events, GoodEvent reg e)

instance (reg : FeatureRegistry) (s : LState) : Decidable (MgrInv reg s) := by
  unfold MgrInv
  infer_instance

/-- Frame facts about any terminating run step from `s` to `s'`:
`loadedFeatures` grows monotonically, `loadingFeatures` is restored, a
name that is mid-load at `s` (hence blocked from a fresh episode) is not
added to `loadedFeatures`, and its `loader()`/`register()` invocation
counts do not change — except that `loadFeature` itself, which runs inside
its own feature's episode, invokes that feature's loader. -/
def Frame (excluded : Option String) (s s' : LState) : Prop :=
  s.loadedFeatures ⊆ s'.loadedFeatures ∧
  s'.loadingFeatures = s.loadingFeatures ∧
  (∀ x ∈ s.loadingFeatures, x ∉ s.loadedFeatures → x ∉ s'.loadedFeatures) ∧
  (∀ x ∈ s.loadingFeatures, excluded ≠ some x →
    s'.loaderCalls.count x = s.loaderCalls.count x ∧
    s'.registerCalls.count x = s.registerCalls.count x)

theorem Frame.refl {ex : Option String} {s : LState} : Frame ex s s :=
  ⟨fun _ h => h, Eq.refl _, fun _ _ h => h, fun _ _ _ => ⟨Eq.refl _, Eq.refl _⟩⟩

theorem Frame.trans {s₁ s₂ s₃ : LState}
    (h₁ : Frame none s₁ s₂) (h₂ : Frame none s₂ s₃) : Frame none s₁ s₃ := by
  obtain ⟨m₁, l₁, n₁, c₁⟩ := h₁
  obtain ⟨m₂, l₂, n₂, c₂⟩ := h₂
  refine ⟨fun x hx => m₂ (m₁ hx), l₂.trans l₁, ?_, ?_⟩
  · intro x hx hnl
    exact n₂ x (l₁ ▸ hx) (n₁ x hx hnl)
  · intro x hx hne
    obtain ⟨cl₁, cr₁⟩ := c₁ x hx hne
    obtain ⟨cl₂, cr₂⟩ := c₂ x (l₁ ▸ hx) hne
    exact ⟨cl₂.trans cl₁, cr₂.trans cr₁⟩

theorem Frame.weaken {n : String} {s s' : LState}
    (h : Frame none s s') : Frame (some n) s s' := by
  obtain ⟨m, l, nl, c⟩ := h
  exact ⟨m, l, nl, fun x hx _ => c x hx (by simp)⟩

/-- Post-condition of a terminating `ensureFeatureLoaded` call. -/
def EnsurePost (reg : FeatureRegistry) (n : String) (s s' : LState)
    (r : LoadResult) : Prop :=
  MgrInv reg s' ∧ Frame none s s' ∧
  (r = .ok → n ∈ s'.loadedFeatures) ∧
  (∀ e, r = .error e → n ∉ s'.loadedFeatures)

/-- Post-condition of a terminating `loadFeature` call. -/
def LoadPost (reg : FeatureRegistry) (n : String) (s s' : LState)
    (r : LoadResult) : Prop :=
  MgrInv reg s' ∧ Frame (some n) s s' ∧
  (r = .ok → ∀ d ∈ directDeps reg n, d ∈ s'.loadedFeatures)

/-- Post-condition of a terminating `ensureAllFeatures` call. -/
def AllPost (reg : FeatureRegistry) (ds : List String) (s s' : LState)
    (rs : List LoadResult) : Prop :=
  MgrInv reg s' ∧ Frame none s s' ∧ rs.length = ds.length ∧
  (∀ (i : Nat) (h₁ : i < ds.length) (h₂ : i < rs.length),
    rs.get ⟨i, h₂⟩ = .ok → ds.get ⟨i, h₁⟩ ∈ s'.loadedFeatures)

/-- All results of a settled `Promise.all` resolved iff the aggregate did. -/
theorem firstError_eq_ok_iff (rs : List LoadResult) :
    firstError rs = .ok ↔ ∀ r ∈ rs, r = .ok := by
  induction rs with
  | nil => simp [firstError]
  | cons r rest ih =>
    cases r with
    | ok => simpa [firstError] using ih
    | error e => simp [firstError]

theorem list_contains_iff_mem {a : String} {l : List String} :
    l.contains a = true ↔ a ∈ l :=
  List.elem_iff


/-- The loader-invocation tail preserves the invariant, leaves the loaded
and loading sets untouched, and preserves the invocation counts of every
feature other than the one being loaded. -/
theorem importAndRegister_post (env : LoaderEnv) (reg : FeatureRegistry)
    (n : String) (s₁ : LState) (hInv : MgrInv reg s₁)
    (hdeps : ∀ d ∈ directDeps reg n, d ∈ s₁.loadedFeatures) :
    MgrInv reg (importAndRegister env n s₁).1 ∧
    Frame (some n) s₁ (importAndRegister env n s₁).1 ∧
    (importAndRegister env n s₁).1.loadedFeatures = s₁.loadedFeatures ∧
    (importAndRegister env n s₁).1.loadingFeatures = s₁.loadingFeatures := by
  obtain ⟨hdisj, hclosed, hevents⟩ := hInv
  have hGoodL : GoodEvent reg (.loaderInvoked n s₁.loadedFeatures s₁.loadingFeatures) :=
    ⟨hdeps, hclosed, hdisj⟩
  have hGoodR : GoodEvent reg (.registerInvoked n s₁.loadedFeatures s₁.loadingFeatures) :=
    ⟨hdeps, hclosed, hdisj⟩
  have hev₁ : ∀ e ∈ s₁.events ++
      [LoadEvent.loaderInvoked n s₁.loadedFeatures s₁.loadingFeatures],
      GoodEvent reg e := by
    intro e he
    rcases List.mem_append.mp he with h | h
    · exact hevents e h
    · rw [List.mem_singleton] at h
      subst h
      exact hGoodL
  have hev₂ : ∀ e ∈ (s₁.events ++
      [LoadEvent.loaderInvoked n s₁.loadedFeatures s₁.loadingFeatures]) ++
      [LoadEvent.registerInvoked n s₁.loadedFeatures s₁.loadingFeatures],
      GoodEvent reg e := by
    intro e he
    rcases List.mem_append.mp he with h | h
    · exact hev₁ e h
    · rw [List.mem_singleton] at h
      subst h
      exact hGoodR
  have hcountL : ∀ x : String, x ≠ n →
      (s₁.loaderCalls ++ [n]).count x = s₁.loaderCalls.count x := by
    intro x hxn
    simp [List.count_append, hxn]
  have hcountR : ∀ x : String, x ≠ n →
      (s₁.registerCalls ++ [n]).count x = s₁.registerCalls.count x := by
    intro x hxn
    simp [List.count_append, hxn]
  simp only [importAndRegister]
  cases hb : env n (s₁.loaderCalls.count n)
  case rejects c =>
    refine ⟨⟨hdisj, hclosed, hev₁⟩, ⟨fun x hx => hx, rfl, fun x _ h => h, ?_⟩, rfl, rfl⟩
    intro x hx hne
    exact ⟨hcountL x (fun h => hne (by rw [h])), rfl⟩
  case malformed =>
    refine ⟨⟨hdisj, hclosed, hev₁⟩, ⟨fun x hx => hx, rfl, fun x _ h => h, ?_⟩, rfl, rfl⟩
    intro x hx hne
    exact ⟨hcountL x (fun h => hne (by rw [h])), rfl⟩
  case moduleThrows c =>
    refine ⟨⟨hdisj, hclosed, hev₂⟩, ⟨fun x hx => hx, rfl, fun x _ h => h, ?_⟩, rfl, rfl⟩
    intro x hx hne
    exact ⟨hcountL x (fun h => hne (by rw [h])), hcountR x (fun h => hne (by rw [h]))⟩
  case moduleOk =>
    refine ⟨⟨hdisj, hclosed, hev₂⟩, ⟨fun x hx => hx, rfl, fun x _ h => h, ?_⟩, rfl, rfl⟩
    intro x hx hne
    exact ⟨hcountL x (fun h => hne (by rw [h])), hcountR x (fun h => hne (by rw [h]))⟩

theorem Frame.trans_left {n : String} {s₁ s₂ s₃ : LState}
    (h₁ : Frame none s₁ s₂) (h₂ : Frame (some n) s₂ s₃) : Frame (some n) s₁ s₃ := by
  obtain ⟨m₁, l₁, n₁, c₁⟩ := h₁
  obtain ⟨m₂, l₂, n₂, c₂⟩ := h₂
  refine ⟨fun x hx => m₂ (m₁ hx), l₂.trans l₁, ?_, ?_⟩
  · intro x hx hnl
    exact n₂ x (l₁ ▸ hx) (n₁ x hx hnl)
  · intro x hx hne
    obtain ⟨cl₁, cr₁⟩ := c₁ x hx (by simp)
    obtain ⟨cl₂, cr₂⟩ := c₂ x (l₁ ▸ hx) hne
    exact ⟨cl₂.trans cl₁, cr₂.trans cr₁⟩


/-- Master run lemma: from an invariant state, every terminating
`ensureFeatureLoaded`, `loadFeature` or `ensureAllFeatures` run preserves
the invariant and satisfies its post-condition (monotone `loadedFeatures`,
restored `loadingFeatures`, no loading-in-progress name gets loaded or has
its invocation counts changed by sub-runs, success marks the feature
loaded with its dependencies already loaded, failure leaves it unloaded). -/
theorem mgr_master (env : LoaderEnv) (reg : FeatureRegistry) : ∀ fuel : Nat,
    (∀ n s s' r, MgrInv reg s →
      ensureFeatureLoaded env reg fuel n s = some (s', r) → EnsurePost reg n s s' r) ∧
    (∀ n s s' r, MgrInv reg s →
      loadFeature env reg fuel n s = some (s', r) → LoadPost reg n s s' r) ∧
    (∀ ds s s' rs, MgrInv reg s →
      ensureAllFeatures env reg fuel ds s = some (s', rs) → AllPost reg ds s s' rs) := by
  intro fuel
  induction fuel with
  | zero =>
    refine ⟨?_, ?_, ?_⟩
    · intro n s s' r _ hrun
      simp [ensureFeatureLoaded] at hrun
    · intro n s s' r _ hrun
      simp [loadFeature] at hrun
    · intro ds s s' rs hInv hrun
      cases ds with
      | nil =>
        simp only [ensureAllFeatures, Option.some.injEq, Prod.mk.injEq] at hrun
        obtain ⟨rfl, rfl⟩ := hrun
        exact ⟨hInv, Frame.refl, rfl, fun i h₁ h₂ => absurd h₁ (by simp)⟩
      | cons d rest =>
        simp [ensureAllFeatures] at hrun
  | succ fuel ih =>
    obtain ⟨ihE, ihL, ihD⟩ := ih
    refine ⟨?_, ?_, ?_⟩
    · -- ensureFeatureLoaded
      intro n s s' r hInv hrun
      have hInvKeep := hInv
      obtain ⟨hdisj, hclosed, hevents⟩ := hInv
      simp only [ensureFeatureLoaded] at hrun
      by_cases h1 : s.loadedFeatures.contains n = true
      · rw [if_pos h1] at hrun
        obtain ⟨rfl, rfl⟩ : s = s' ∧ LoadResult.ok = r := by simpa using hrun
        exact ⟨hInvKeep, Frame.refl, fun _ => list_contains_iff_mem.mp h1,
          fun e he => LoadResult.noConfusion he⟩
      · rw [if_neg h1] at hrun
        by_cases h2 : s.loadingFeatures.contains n = true
        · rw [if_pos h2] at hrun
          exact Option.noConfusion hrun
        · rw [if_neg h2] at hrun
          have hnmemLoaded : n ∉ s.loadedFeatures :=
            fun hm => h1 (list_contains_iff_mem.mpr hm)
          have hnmemLoading : n ∉ s.loadingFeatures :=
            fun hm => h2 (list_contains_iff_mem.mpr hm)
          have hInv₀ : MgrInv reg { s with loadingFeatures := n :: s.loadingFeatures } := by
            refine ⟨?_, hclosed, hevents⟩
            intro x hx
            rcases List.mem_cons.mp hx with rfl | hx'
            · exact hnmemLoaded
            · exact hdisj x hx'
          cases hL : loadFeature env reg fuel n
              { s with loadingFeatures := n :: s.loadingFeatures } with
          | none =>
            rw [hL] at hrun
            exact Option.noConfusion hrun
          | some p =>
            obtain ⟨s₁, r₁⟩ := p
            obtain ⟨hInv₁, hFrame₁, hok₁⟩ := ihL n _ s₁ r₁ hInv₀ hL
            obtain ⟨hdisj₁, hclosed₁, hevents₁⟩ := hInv₁
            obtain ⟨hmono₁, hload₁, hnl₁, hcnt₁⟩ := hFrame₁
            have hxneq : ∀ x ∈ s.loadingFeatures, x ≠ n :=
              fun x hx h => hnmemLoading (h ▸ hx)
            cases r₁ with
            | ok =>
              simp only [hL] at hrun
              rw [Option.some.injEq, Prod.mk.injEq] at hrun
              obtain ⟨rfl, rfl⟩ := hrun
              refine ⟨⟨?_, ?_, ?_⟩, ⟨?_, ?_, ?_, ?_⟩, fun _ => List.mem_cons_self n _, ?_⟩
              · -- disjointness after add + erase
                intro x hx
                rw [hload₁, List.erase_cons_head] at hx
                have hx₁ : x ∈ s₁.loadingFeatures := by
                  rw [hload₁]
                  exact List.mem_cons_of_mem _ hx
                intro hmem
                rcases List.mem_cons.mp hmem with rfl | hmem'
                · exact hxneq x hx rfl
                · exact hdisj₁ x hx₁ hmem'
              · -- closedness after add
                intro m hm d hd
                rcases List.mem_cons.mp hm with rfl | hm'
                · exact List.mem_cons_of_mem _ (hok₁ rfl d hd)
                · exact List.mem_cons_of_mem _ (hclosed₁ m hm' d hd)
              · -- events
                intro e he
                rcases List.mem_append.mp he with h | h
                · exact hevents₁ e h
                · rw [List.mem_singleton] at h
                  subst h
                  exact ⟨hok₁ rfl, hclosed₁, hdisj₁⟩
              · -- monotone
                intro x hx
                exact List.mem_cons_of_mem _ (hmono₁ hx)
              · -- loading restored
                rw [hload₁, List.erase_cons_head]
              · -- loading-noload
                intro x hx hnload
                have hx₀ : x ∈ ({ s with loadingFeatures := n :: s.loadingFeatures } : LState).loadingFeatures :=
                  List.mem_cons_of_mem _ hx
                intro hmem
                rcases List.mem_cons.mp hmem with rfl | hmem'
                · exact hxneq x hx rfl
                · exact hnl₁ x hx₀ hnload hmem'
              · -- counts preserved
                intro x hx _
                exact hcnt₁ x (List.mem_cons_of_mem _ hx)
                  (fun h => hxneq x hx (by injection h with h; exact h.symm))
              · -- error impossible
                intro e he
                exact LoadResult.noConfusion he
            | error e =>
              simp only [hL] at hrun
              rw [Option.some.injEq, Prod.mk.injEq] at hrun
              obtain ⟨rfl, rfl⟩ := hrun
              refine ⟨⟨?_, hclosed₁, hevents₁⟩, ⟨hmono₁, ?_, ?_, ?_⟩, ?_, ?_⟩
              · -- disjointness
                intro x hx
                rw [hload₁, List.erase_cons_head] at hx
                exact hdisj₁ x (by rw [hload₁]; exact List.mem_cons_of_mem _ hx)
              · rw [hload₁, List.erase_cons_head]
              · intro x hx hnload
                exact hnl₁ x (List.mem_cons_of_mem _ hx) hnload
              · intro x hx _
                exact hcnt₁ x (List.mem_cons_of_mem _ hx)
                  (fun h => hxneq x hx (by injection h with h; exact h.symm))
              · intro h
                exact LoadResult.noConfusion h
              · intro e' _
                exact hnl₁ n (List.mem_cons_self _ _) hnmemLoaded
    · -- loadFeature
      intro n s s' r hInv hrun
      have hInvKeep := hInv
      simp only [loadFeature] at hrun
      cases hg : reg.get n with
      | none =>
        simp only [hg] at hrun
        rw [Option.some.injEq, Prod.mk.injEq] at hrun
        obtain ⟨rfl, rfl⟩ := hrun
        refine ⟨hInvKeep, Frame.refl, ?_⟩
        intro h
        exact LoadResult.noConfusion h
      | some metadata =>
        simp only [hg] at hrun
        have hdd : directDeps reg n = metadata.dependencies.getD [] := by
          simp [directDeps, hg]
        by_cases hdep : (metadata.dependencies.getD []).length > 0
        · rw [if_pos hdep] at hrun
          cases hD : ensureAllFeatures env reg fuel (metadata.dependencies.getD []) s with
          | none => simp [hD] at hrun
          | some p =>
            obtain ⟨s₁, rs⟩ := p
            obtain ⟨hInv₁, hFrame₁, hlen₁, hidx₁⟩ := ihD _ s s₁ rs hInvKeep hD
            simp only [hD] at hrun
            cases hF : firstError rs with
            | error e =>
              simp only [hF] at hrun
              rw [Option.some.injEq, Prod.mk.injEq] at hrun
              obtain ⟨rfl, rfl⟩ := hrun
              refine ⟨hInv₁, Frame.weaken hFrame₁, ?_⟩
              intro h
              exact LoadResult.noConfusion h
            | ok =>
              simp only [hF] at hrun
              rw [Option.some.injEq] at hrun
              have hs' : (importAndRegister env n s₁).1 = s' := by rw [hrun]
              have hr : (importAndRegister env n s₁).2 = r := by rw [hrun]
              subst hs'
              subst hr
              have hallok : ∀ r' ∈ rs, r' = .ok := (firstError_eq_ok_iff rs).mp hF
              have hdeps : ∀ d ∈ directDeps reg n, d ∈ s₁.loadedFeatures := by
                rw [hdd]
                intro d hd
                obtain ⟨i, hi⟩ := List.mem_iff_get.mp hd
                have hilt : i.1 < rs.length := by rw [hlen₁]; exact i.2
                have hoki : rs.get ⟨i.1, hilt⟩ = .ok := hallok _ (rs.get_mem _ _)
                have := hidx₁ i.1 i.2 hilt hoki
                rwa [hi] at this
              obtain ⟨hInvI, hFrameI, hloadedI, _⟩ :=
                importAndRegister_post env reg n s₁ hInv₁ hdeps
              refine ⟨hInvI, Frame.trans_left hFrame₁ hFrameI, ?_⟩
              intro _
              rw [hloadedI]
              exact hdeps
        · rw [if_neg hdep] at hrun
          rw [Option.some.injEq] at hrun
          have hs' : (importAndRegister env n s).1 = s' := by rw [hrun]
          have hr : (importAndRegister env n s).2 = r := by rw [hrun]
          subst hs'
          subst hr
          have hdeps : ∀ d ∈ directDeps reg n, d ∈ s.loadedFeatures := by
            rw [hdd]
            intro d hd
            rw [List.eq_nil_of_length_eq_zero (Nat.eq_zero_of_not_pos hdep)] at hd
            exact absurd hd (List.not_mem_nil d)
          obtain ⟨hInvI, hFrameI, hloadedI, _⟩ :=
            importAndRegister_post env reg n s hInvKeep hdeps
          refine ⟨hInvI, hFrameI, ?_⟩
          intro _
          rw [hloadedI]
          exact hdeps
    · -- ensureAllFeatures
      intro ds s s' rs hInv hrun
      cases ds with
      | nil =>
        simp only [ensureAllFeatures, Option.some.injEq, Prod.mk.injEq] at hrun
        obtain ⟨rfl, rfl⟩ := hrun
        exact ⟨hInv, Frame.refl, rfl, fun i h₁ => absurd h₁ (by simp)⟩
      | cons d rest =>
        simp only [ensureAllFeatures] at hrun
        cases hE : ensureFeatureLoaded env reg fuel d s with
        | none => simp [hE] at hrun
        | some p =>
          obtain ⟨s₁, r₁⟩ := p
          simp only [hE] at hrun
          cases hR : ensureAllFeatures env reg fuel rest s₁ with
          | none => simp [hR] at hrun
          | some q =>
            obtain ⟨s₂, rs'⟩ := q
            simp only [hR] at hrun
            rw [Option.some.injEq, Prod.mk.injEq] at hrun
            obtain ⟨rfl, rfl⟩ := hrun
            obtain ⟨hInv₁, hFrame₁, hok₁, _⟩ := ihE d s s₁ r₁ hInv hE
            obtain ⟨hInv₂, hFrame₂, hlen₂, hidx₂⟩ := ihD rest s₁ s₂ rs' hInv₁ hR
            refine ⟨hInv₂, Frame.trans hFrame₁ hFrame₂, by simp [hlen₂], ?_⟩
            intro i h₁ h₂ hok
            cases i with
            | zero =>
              have hr₁ : r₁ = .ok := by simpa using hok
              simpa using hFrame₂.1 (hok₁ hr₁)
            | succ i =>
              have h₁' : i < rest.length := by simpa using h₁
              have h₂' : i < rs'.length := by simpa using h₂
              have hok' : rs'.get ⟨i, h₂'⟩ = .ok := by simpa using hok
              simpa using hidx₂ i h₁' h₂' hok'

/-- Claim C2: dependency ordering.  In every terminating run from an
invariant state, every recorded instant — each `loader()` invocation, each
`register(container)` invocation, and each addition to `loadedFeatures`
(whose snapshot is taken just before the add) — has every transitive
dependency of the feature concerned already present in the `loadedFeatures`
snapshot; in particular a feature's `register` only runs once its
transitive dependencies are loaded, a name is added to `loadedFeatures`
only after its transitive dependencies are, and if a dependency's load
failed (so the dependency is not in `loadedFeatures`), the dependent's
`loader()` and `register()` cannot have run.  The final loaded set is
dependency-closed. -/
theorem ensureFeatureLoaded_dependency_order
    (env : LoaderEnv) (reg : FeatureRegistry) (fuel : Nat) (n : String)
    (s s' : LState) (r : LoadResult) (hInv : MgrInv reg s)
    (hrun : ensureFeatureLoaded env reg fuel n s = some (s', r)) :
    (∀ e ∈ s'.events, ∀ d, DependsOn reg e.fname d → d ∈ e.loadedSnap) ∧
    DepsClosed reg s'.loadedFeatures := by
  obtain ⟨⟨_, hclosed', hevents'⟩, _, _, _⟩ :=
    (mgr_master env reg fuel).1 n s s' r hInv hrun
  refine ⟨?_, hclosed'⟩
  intro e he d hdep
  obtain ⟨hdir, hcl, _⟩ := hevents' e he
  exact hdep.mem_of_closed hdir hcl

/-- Claim C4: state exclusivity.  At every recorded observable instant of
a run (and in the final state), no feature name is simultaneously in
`loadingFeatures` and `loadedFeatures`; a name that is in neither is in
the implicit "not started" state, so the three states are mutually
exclusive.  `loadedFeatures` grows monotonically — no run removes a name —
and only the test-only `resetFeatureManager` clears both sets. -/
theorem featureManager_state_exclusive :
    (∀ (env : LoaderEnv) (reg : FeatureRegistry) (fuel : Nat) (n : String)
       (s s' : LState) (r : LoadResult), MgrInv reg s →
       ensureFeatureLoaded env reg fuel n s = some (s', r) →
       (∀ e ∈ s'.events, ∀ x ∈ e.loadingSnap, x ∉ e.loadedSnap) ∧
       (∀ x ∈ s'.loadingFeatures, x ∉ s'.loadedFeatures) ∧
       s.loadedFeatures ⊆ s'.loadedFeatures) ∧
    (∀ s : LState, (resetFeatureManager s).loadedFeatures = [] ∧
       (resetFeatureManager s).loadingFeatures = []) := by
  constructor
  · intro env reg fuel n s s' r hInv hrun
    obtain ⟨⟨hdisj', _, hevents'⟩, ⟨hmono, _, _, _⟩, _, _⟩ :=
      (mgr_master env reg fuel).1 n s s' r hInv hrun
    exact ⟨fun e he => (hevents' e he).2.2, hdisj', hmono⟩
  · intro s
    exact ⟨rfl, rfl⟩

/-- Claim C7: `preloadFeatures` has `Promise.all` semantics over the
per-name `ensureFeatureLoaded` runs: it resolves exactly when every
per-name result resolved and rejects (with the first rejection) if any
failed, and every listed name whose individual load succeeded is in
`loadedFeatures` afterwards, even when the aggregate call rejected. -/
theorem preloadFeatures_spec (env : LoaderEnv) (reg : FeatureRegistry)
    (fuel : Nat) (names : List String) (s s' : LState) (rs : List LoadResult)
    (hInv : MgrInv reg s)
    (hall : ensureAllFeatures env reg fuel names s = some (s', rs)) :
    preloadFeatures env reg fuel names s = some (s', firstError rs) ∧
    (firstError rs = .ok ↔ ∀ r ∈ rs, r = .ok) ∧
    rs.length = names.length ∧
    (∀ (i : Nat) (h₁ : i < names.length) (h₂ : i < rs.length),
      rs.get ⟨i, h₂⟩ = .ok → names.get ⟨i, h₁⟩ ∈ s'.loadedFeatures) := by
  obtain ⟨_, _, hlen, hidx⟩ := (mgr_master env reg fuel).2.2 names s s' rs hInv hall
  refine ⟨?_, firstError_eq_ok_iff rs, hlen, hidx⟩
  simp [preloadFeatures, hall]

/-- Claim C10: `getFeatureStats` is internally consistent: `registered`
and `loaded` are the lengths of `registeredList` (the registry's names)
and `loadedList` (the loaded names), and `notLoaded` is exactly the
registered names not present in `loadedFeatures`.  The embedding is a pure
function of the registry and manager state, so calling it mutates
neither. -/
theorem getFeatureStats_consistent (reg : FeatureRegistry) (s : LState) :
    (getFeatureStats reg s).registered = (getFeatureStats reg s).registeredList.length ∧
    (getFeatureStats reg s).loaded = (getFeatureStats reg s).loadedList.length ∧
    (getFeatureStats reg s).registeredList = getRegisteredFeatures reg ∧
    (getFeatureStats reg s).loadedList = getLoadedFeatures s ∧
    (∀ f, f ∈ (getFeatureStats reg s).notLoaded ↔
      f ∈ (getFeatureStats reg s).registeredList ∧ f ∉ s.loadedFeatures) := by
  refine ⟨rfl, rfl, rfl, rfl, ?_⟩
  intro f
  simp [getFeatureStats, getRegisteredFeatures, getLoadedFeatures, List.mem_filter,
    list_contains_iff_mem]

theorem not_contains_of_not_mem {a : String} {l : List String} (h : a ∉ l) :
    l.contains a = false :=
  Bool.eq_false_iff.mpr (fun hc => h (list_contains_iff_mem.mp hc))

/-- A name absent from the registry makes `ensureFeatureLoaded` reject with
the enumerating unknown-feature error and leave the state unchanged. -/
theorem ensure_unknown_eq (env : LoaderEnv) (reg : FeatureRegistry)
    (fuel : Nat) (n : String) (s : LState)
    (hget : reg.get n = none) (h1 : n ∉ s.loadedFeatures) (h2 : n ∉ s.loadingFeatures) :
    ensureFeatureLoaded env reg (fuel + 2) n s =
      some (s, .error (.unknownFeature n reg.getAll)) := by
  have hc1 := not_contains_of_not_mem h1
  have hc2 := not_contains_of_not_mem h2
  simp only [ensureFeatureLoaded, loadFeature, hc1, hc2, Bool.false_eq_true, if_false,
    List.erase_cons_head, hget]

/-- Claim C5: unknown features.  (1) For a name absent from the registry,
`ensureFeatureLoaded` rejects with the unknown-feature error carrying the
enumeration `featureRegistry.getAll()` of currently-registered names, and
leaves the state unchanged.  (2) For a registered feature whose (first)
declared dependency was never registered, the dependent's call rejects
with that dependency's unknown-feature error and the dependent is never
added to `loadedFeatures`.  (3) The error's message embeds the
comma-separated enumeration of the registered names. -/
theorem ensureFeatureLoaded_unknown_feature :
    (∀ (env : LoaderEnv) (reg : FeatureRegistry) (fuel : Nat) (n : String) (s : LState),
       reg.get n = none → n ∉ s.loadedFeatures → n ∉ s.loadingFeatures →
       ensureFeatureLoaded env reg (fuel + 2) n s =
         some (s, .error (.unknownFeature n reg.getAll))) ∧
    (∀ (env : LoaderEnv) (reg : FeatureRegistry) (fuel : Nat) (n : String)
       (meta : FeatureMetadata) (d : String) (rest : List String)
       (s s' : LState) (r : LoadResult),
       reg.get n = some meta → meta.dependencies.getD [] = d :: rest →
       reg.get d = none → d ≠ n →
       n ∉ s.loadedFeatures → n ∉ s.loadingFeatures →
       d ∉ s.loadedFeatures → d ∉ s.loadingFeatures →
       MgrInv reg s →
       ensureFeatureLoaded env reg (fuel + 5) n s = some (s', r) →
       r = .error (.unknownFeature d reg.getAll) ∧ n ∉ s'.loadedFeatures) ∧
    (∀ (n : String) (avail : List String), avail ≠ [] →
       ∃ pre post, loadErrorMessage (.unknownFeature n avail) =
         pre ++ String.intercalate ", " avail ++ post) := by
  refine ⟨fun env reg fuel n s hget h1 h2 => ensure_unknown_eq env reg fuel n s hget h1 h2,
    ?_, ?_⟩
  · intro env reg fuel n meta d rest s s' r hget hdeps hdget hdn hn1 hn2 hd1 hd2 hInv hrun
    have hc1 := not_contains_of_not_mem hn1
    have hc2 := not_contains_of_not_mem hn2
    have hd2' : d ∉ (n :: s.loadingFeatures) := by
      intro hm
      rcases List.mem_cons.mp hm with h | h
      · exact hdn h
      · exact hd2 h
    have hInv₀ : MgrInv reg { s with loadingFeatures := n :: s.loadingFeatures } := by
      obtain ⟨hdisj, hclosed, hevents⟩ := hInv
      refine ⟨?_, hclosed, hevents⟩
      intro x hx
      rcases List.mem_cons.mp hx with rfl | hx'
      · exact hn1
      · exact hdisj x hx'
    have hdstep := ensure_unknown_eq env reg fuel d
      { s with loadingFeatures := n :: s.loadingFeatures } hdget hd1 hd2'
    simp only [ensureFeatureLoaded, hc1, hc2, Bool.false_eq_true, if_false] at hrun
    simp only [loadFeature, hget, hdeps] at hrun
    rw [if_pos (by simp : (d :: rest).length > 0)] at hrun
    simp only [ensureAllFeatures, hdstep] at hrun
    cases hR : ensureAllFeatures env reg (fuel + 2) rest
        { s with loadingFeatures := n :: s.loadingFeatures } with
    | none => simp [hR] at hrun
    | some q =>
      obtain ⟨s₂, rs'⟩ := q
      simp only [hR, firstError] at hrun
      rw [Option.some.injEq, Prod.mk.injEq] at hrun
      obtain ⟨rfl, rfl⟩ := hrun
      refine ⟨rfl, ?_⟩
      obtain ⟨_, ⟨_, _, hnl, _⟩, _, _⟩ :=
        (mgr_master env reg (fuel + 2)).2.2 rest _ s₂ rs' hInv₀ hR
      exact hnl n (List.mem_cons_self _ _) hn1
  · intro n avail hne
    refine ⟨"[FeatureManager] Feature \"" ++ n ++ "\" not found in registry.\n" ++
      "Available features: ", "\n" ++ "Did you forget to import the feature in App.tsx?", ?_⟩
    simp only [loadErrorMessage]
    rw [if_pos (by cases avail with
      | nil => exact absurd rfl hne
      | cons a l => simp)]
    simp [String.append_assoc]

/-- First failed episode of the retry scenario: from the initial state, a
dependency-free feature whose first loader invocation yields a module whose
`register` throws. -/
theorem ensure_retry_first (env : LoaderEnv) (reg : FeatureRegistry)
    (fuel : Nat) (n : String) (meta : FeatureMetadata) (c : Nat)
    (hget : reg.get n = some meta) (hdep0 : meta.dependencies.getD [] = [])
    (henv0 : env n 0 = .moduleThrows c) :
    ensureFeatureLoaded env reg (fuel + 3) n LState.init =
      some (⟨[], [], [n], [n],
        [.loaderInvoked n [] [n], .registerInvoked n [] [n]]⟩,
        .error (.registerThrew n c)) := by
  simp only [ensureFeatureLoaded, loadFeature, importAndRegister, LState.init, hget, hdep0,
    List.contains_nil, Bool.false_eq_true, if_false, List.length_nil, Nat.lt_irrefl,
    List.count_nil, henv0, List.erase_cons_head, List.nil_append]
  simp

/-- Second, fresh episode of the retry scenario: the loader is re-invoked
(invocation index 1) and now succeeds. -/
theorem ensure_retry_second (env : LoaderEnv) (reg : FeatureRegistry)
    (fuel : Nat) (n : String) (meta : FeatureMetadata)
    (hget : reg.get n = some meta) (hdep0 : meta.dependencies.getD [] = [])
    (henv1 : env n 1 = .moduleOk) :
    ensureFeatureLoaded env reg (fuel + 3) n
        ⟨[], [], [n], [n], [.loaderInvoked n [] [n], .registerInvoked n [] [n]]⟩ =
      some (⟨[n], [], [n, n], [n, n],
        [.loaderInvoked n [] [n], .registerInvoked n [] [n],
         .loaderInvoked n [] [n], .registerInvoked n [] [n], .addedLoaded n [] [n]]⟩,
        .ok) := by
  have hcount : List.count n [n] = 1 := List.count_singleton_self n
  simp only [ensureFeatureLoaded, loadFeature, importAndRegister, hget, hdep0,
    List.contains_nil, Bool.false_eq_true, if_false, List.length_nil, Nat.lt_irrefl,
    hcount, henv1, List.erase_cons_head, List.nil_append]
  simp

/-- Claim C3: failures reset loader state and are retriable.  (1) Any
failing `ensureFeatureLoaded` run leaves the name absent from both
`loadedFeatures` and `loadingFeatures`, with `loadingFeatures` exactly as
before the call.  (2) Retry scenario: a feature whose `register` throws on
the first invocation makes the first call reject with that error (the
name in neither set, one loader invocation), and a second call starts a
fresh attempt that re-invokes `loader()` (invocation count 2) and
succeeds. -/
theorem ensureFeatureLoaded_failure_is_retriable :
    (∀ (env : LoaderEnv) (reg : FeatureRegistry) (fuel : Nat) (n : String)
       (s s' : LState) (e : LoadError), MgrInv reg s → n ∉ s.loadingFeatures →
       ensureFeatureLoaded env reg fuel n s = some (s', .error e) →
       n ∉ s'.loadedFeatures ∧ n ∉ s'.loadingFeatures ∧
         s'.loadingFeatures = s.loadingFeatures) ∧
    (∀ (env : LoaderEnv) (reg : FeatureRegistry) (fuel : Nat) (n : String)
       (meta : FeatureMetadata) (c : Nat),
       reg.get n = some meta → meta.dependencies.getD [] = [] →
       env n 0 = .moduleThrows c → env n 1 = .moduleOk →
       ∃ s₁ s₂,
         ensureFeatureLoaded env reg (fuel + 3) n LState.init =
           some (s₁, .error (.registerThrew n c)) ∧
         n ∉ s₁.loadedFeatures ∧ n ∉ s₁.loadingFeatures ∧
         s₁.loaderCalls.count n = 1 ∧
         ensureFeatureLoaded env reg (fuel + 3) n s₁ = some (s₂, .ok) ∧
         n ∈ s₂.loadedFeatures ∧ s₂.loaderCalls.count n = 2) := by
  constructor
  · intro env reg fuel n s s' e hInv hnl hrun
    obtain ⟨_, ⟨_, hload, _, _⟩, _, herr⟩ := (mgr_master env reg fuel).1 n s s' _ hInv hrun
    exact ⟨herr e rfl, by rw [hload]; exact hnl, hload⟩
  · intro env reg fuel n meta c hget hdep0 henv0 henv1
    exact ⟨_, _, ensure_retry_first env reg fuel n meta c hget hdep0 henv0,
      by simp, by simp, by simp,
      ensure_retry_second env reg fuel n meta hget hdep0 henv1,
      by simp, by simp⟩

theorem importAndRegister_malformed (env : LoaderEnv) (n : String) (s₁ : LState)
    (h : env n (s₁.loaderCalls.count n) = .malformed) :
    importAndRegister env n s₁ =
      ({ s₁ with
          loaderCalls := s₁.loaderCalls ++ [n],
          events := s₁.events ++
            [.loaderInvoked n s₁.loadedFeatures s₁.loadingFeatures] },
        .error (.malformedModule n)) := by
  simp only [importAndRegister, h]

/-- A `loadFeature` run for a feature whose loader always resolves to a
malformed module can only fail, and never invokes that feature's
`register`. -/
theorem loadFeature_malformed_run (env : LoaderEnv) (reg : FeatureRegistry)
    (fuel : Nat) (n : String) (s s₁ : LState) (r₁ : LoadResult)
    (hInv : MgrInv reg s) (hmal : ∀ k, env n k = .malformed)
    (hn : n ∈ s.loadingFeatures)
    (hrun : loadFeature env reg fuel n s = some (s₁, r₁)) :
    (∃ e, r₁ = .error e) ∧
      s₁.registerCalls.count n = s.registerCalls.count n := by
  cases fuel with
  | zero => simp [loadFeature] at hrun
  | succ fuel =>
    simp only [loadFeature] at hrun
    cases hg : reg.get n with
    | none =>
      simp only [hg] at hrun
      rw [Option.some.injEq, Prod.mk.injEq] at hrun
      obtain ⟨rfl, rfl⟩ := hrun
      exact ⟨⟨_, rfl⟩, rfl⟩
    | some metadata =>
      simp only [hg] at hrun
      by_cases hdep : (metadata.dependencies.getD []).length > 0
      · rw [if_pos hdep] at hrun
        cases hD : ensureAllFeatures env reg fuel (metadata.dependencies.getD []) s with
        | none => simp [hD] at hrun
        | some p =>
          obtain ⟨s₂, rs⟩ := p
          simp only [hD] at hrun
          obtain ⟨_, ⟨_, _, _, hcnt⟩, _, _⟩ :=
            (mgr_master env reg fuel).2.2 _ s s₂ rs hInv hD
          have hcnt' : s₂.registerCalls.count n = s.registerCalls.count n :=
            (hcnt n hn (by simp)).2
          cases hF : firstError rs with
          | error e =>
            simp only [hF] at hrun
            rw [Option.some.injEq, Prod.mk.injEq] at hrun
            obtain ⟨rfl, rfl⟩ := hrun
            exact ⟨⟨e, rfl⟩, hcnt'⟩
          | ok =>
            simp only [hF] at hrun
            rw [importAndRegister_malformed env n s₂ (hmal _)] at hrun
            rw [Option.some.injEq, Prod.mk.injEq] at hrun
            obtain ⟨rfl, rfl⟩ := hrun
            exact ⟨⟨.malformedModule n, rfl⟩, hcnt'⟩
      · simp only [if_neg hdep] at hrun
        rw [importAndRegister_malformed env n s (hmal _)] at hrun
        rw [Option.some.injEq, Prod.mk.injEq] at hrun
        obtain ⟨rfl, rfl⟩ := hrun
        exact ⟨⟨.malformedModule n, rfl⟩, rfl⟩

/-- A dependency-free feature with a malformed loader: the exact run. -/
theorem ensure_malformed_eq (env : LoaderEnv) (reg : FeatureRegistry)
    (fuel : Nat) (n : String) (meta : FeatureMetadata) (s : LState)
    (hget : reg.get n = some meta) (hdep0 : meta.dependencies.getD [] = [])
    (hmal : ∀ k, env n k = .malformed)
    (h1 : n ∉ s.loadedFeatures) (h2 : n ∉ s.loadingFeatures) :
    ensureFeatureLoaded env reg (fuel + 2) n s =
      some ({ s with
              loaderCalls := s.loaderCalls ++ [n],
              events := s.events ++
                [.loaderInvoked n s.loadedFeatures (n :: s.loadingFeatures)] },
        .error (.malformedModule n)) := by
  have hc1 := not_contains_of_not_mem h1
  have hc2 := not_contains_of_not_mem h2
  simp only [ensureFeatureLoaded, loadFeature, importAndRegister, hget, hdep0, hc1, hc2,
    Bool.false_eq_true, if_false, List.length_nil, Nat.lt_irrefl, hmal,
    List.erase_cons_head]

/-- Claim C6: malformed modules.  (1) For a feature whose loader resolves
to a value lacking a callable `register`, any terminating
`ensureFeatureLoaded` run fails, never invokes that feature's `register`,
and never adds it to `loadedFeatures`.  (2) When the loader is reached
(dependency-free instance) the rejection is precisely the
malformed-module error.  (3) That error's message names the feature and
the missing `register` function. -/
theorem loadFeature_malformed_module :
    (∀ (env : LoaderEnv) (reg : FeatureRegistry) (fuel : Nat) (n : String)
       (s s' : LState) (r : LoadResult), MgrInv reg s →
       (∀ k, env n k = .malformed) →
       n ∉ s.loadedFeatures → n ∉ s.loadingFeatures →
       ensureFeatureLoaded env reg fuel n s = some (s', r) →
       (∃ e, r = .error e) ∧ n ∉ s'.loadedFeatures ∧
       s'.registerCalls.count n = s.registerCalls.count n) ∧
    (∀ (env : LoaderEnv) (reg : FeatureRegistry) (fuel : Nat) (n : String)
       (meta : FeatureMetadata) (s : LState),
       reg.get n = some meta → meta.dependencies.getD [] = [] →
       (∀ k, env n k = .malformed) →
       n ∉ s.loadedFeatures → n ∉ s.loadingFeatures →
       ∃ s', ensureFeatureLoaded env reg (fuel + 2) n s =
           some (s', .error (.malformedModule n)) ∧
         n ∉ s'.loadedFeatures ∧ s'.registerCalls = s.registerCalls) ∧
    (∀ n : String, loadErrorMessage (.malformedModule n) =
      "[FeatureManager] Feature \"" ++ n ++ "\" module is invalid. " ++
      "It must export an object with a 'register' function.") := by
  refine ⟨?_, ?_, fun n => rfl⟩
  · intro env reg fuel n s s' r hInv hmal h1 h2 hrun
    cases fuel with
    | zero => simp [ensureFeatureLoaded] at hrun
    | succ fuel =>
      have hc1 := not_contains_of_not_mem h1
      have hc2 := not_contains_of_not_mem h2
      have hInv₀ : MgrInv reg { s with loadingFeatures := n :: s.loadingFeatures } := by
        obtain ⟨hdisj, hclosed, hevents⟩ := hInv
        refine ⟨?_, hclosed, hevents⟩
        intro x hx
        rcases List.mem_cons.mp hx with rfl | hx'
        · exact h1
        · exact hdisj x hx'
      simp only [ensureFeatureLoaded, hc1, hc2, Bool.false_eq_true, if_false] at hrun
      cases hL : loadFeature env reg fuel n
          { s with loadingFeatures := n :: s.loadingFeatures } with
      | none => simp [hL] at hrun
      | some p =>
        obtain ⟨s₁, r₁⟩ := p
        obtain ⟨⟨e, rfl⟩, hcnt⟩ := loadFeature_malformed_run env reg fuel n _ s₁ r₁
          hInv₀ hmal (List.mem_cons_self _ _) hL
        obtain ⟨_, ⟨_, _, hnl, _⟩, _⟩ :=
          (mgr_master env reg fuel).2.1 n _ s₁ _ hInv₀ hL
        simp only [hL] at hrun
        rw [Option.some.injEq, Prod.mk.injEq] at hrun
        obtain ⟨rfl, rfl⟩ := hrun
        exact ⟨⟨e, rfl⟩, hnl n (List.mem_cons_self _ _) h1, hcnt⟩
  · intro env reg fuel n meta s hget hdep0 hmal h1 h2
    exact ⟨_, ensure_malformed_eq env reg fuel n meta s hget hdep0 hmal h1 h2, h1, rfl⟩

/-! ## Small-step interleaving model for concurrent callers (claim C1)

N concurrent `ensureFeatureLoaded(n)` callers for one registered,
dependency-free feature `n`, under the single-threaded event-loop
semantics of the source.  Each transition is one synchronous block
between `await` suspension points:

* `callerStart i` — caller `i` runs lines 43-59 synchronously: the
  `loadedFeatures` fast path, the `loadingFeatures` join path (returning
  the in-flight `loadPromise`), or — as the first caller — the start of a
  load episode: `loadFeature` runs synchronously up to
  `await metadata.loader()` (so `loader()` is invoked and `loaderRuns`
  increments here), `loadingFeatures.set` runs (modelled by
  `loading := true` with a fresh pending `outcome := none`), and the
  caller suspends on `await loadPromise`.
* `loaderSettles` — the loader's promise settles and `loadFeature`'s
  continuation runs synchronously: module validation and the synchronous
  `register(container)` call (which runs — and `registerRuns`
  increments — exactly for the well-formed-module behaviours), settling
  the shared `loadPromise` with the episode's outcome.
* `callerResume i` — a caller suspended on the shared promise observes
  its settled outcome; the episode-starting caller (`isLeader`)
  additionally runs lines 60-66: on success `loadedFeatures.add`, and in
  all cases the `finally` `loadingFeatures.delete`, in one synchronous
  block. -/

/-- Phase of one `ensureFeatureLoaded(n)` caller. -/
inductive CallerPhase
  | notStarted
  | awaiting (isLeader : Bool)
  | done (r : LoadResult)
deriving DecidableEq, Repr

/-- Whether the caller's promise has settled. -/
def CallerPhase.isDone : CallerPhase → Bool
  | .done _ => true
  | _ => false

/-- Global state of the concurrent system, projected to the one feature
`n`: the callers, `n ∈ loadedFeatures`, `n ∈ loadingFeatures`, the settled
value of the in-flight `loadPromise` (`none` while pending), and the
invocation counters for `n`'s `loader()` and `register()`. -/
structure MgrSmallState where
  callers : List CallerPhase
  loaded : Bool
  loading : Bool
  outcome : Option LoadResult
  loaderRuns : Nat
  registerRuns : Nat
deriving DecidableEq, Repr

/-- Scheduler actions: which pending synchronous block runs next. -/
inductive MgrAct
  | callerStart (i : Nat)
  | loaderSettles
  | callerResume (i : Nat)
deriving DecidableEq, Repr

/-- The outcome the load episode settles with, for loader behaviour `b`
(module validation and `register` happen in the settle block). -/
def episodeResult (n : String) : LoaderBehavior → LoadResult
  | .rejects c => .error (.loaderRejected n c)
  | .malformed => .error (.malformedModule n)
  | .moduleThrows c => .error (.registerThrew n c)
  | .moduleOk => .ok

/-- How many times the settle block invokes `register`: once when the
module is well-formed (lines 103-112), never for a rejected loader or a
malformed module. -/
def registerRunsOf : LoaderBehavior → Nat
  | .rejects _ => 0
  | .malformed => 0
  | .moduleThrows _ => 1
  | .moduleOk => 1

/-- One synchronous block of the source, as described in the section
header. -/
def mgrStep (n : String) (b : LoaderBehavior) (s : MgrSmallState) :
    MgrAct → Option MgrSmallState
  | .callerStart i =>
    match s.callers.get? i with
    | some .notStarted =>
      if s.loaded then
        some { s with callers := s.callers.set i (.done .ok) }
      else if s.loading then
        some { s with callers := s.callers.set i (.awaiting false) }
      else
        some { s with
                 callers := s.callers.set i (.awaiting true)
                 loading := true
                 outcome := none
                 loaderRuns := s.loaderRuns + 1 }
    | _ => none
  | .loaderSettles =>
    if s.loading = true ∧ s.outcome = none then
      some { s with
               outcome := some (episodeResult n b)
               registerRuns := s.registerRuns + registerRunsOf b }
    else none
  | .callerResume i =>
    match s.callers.get? i, s.outcome with
    | some (.awaiting ldr), some r =>
      some { s with
               callers := s.callers.set i (.done r)
               loaded := if ldr then r == .ok else s.loaded
               loading := if ldr then false else s.loading }
    | _, _ => none

/-- Run a schedule; `none` when a scheduled block is not enabled. -/
def mgrRun (n : String) (b : LoaderBehavior) :
    MgrSmallState → List MgrAct → Option MgrSmallState
  | s, [] => some s
  | s, a :: t =>
    match mgrStep n b s a with
    | none => none
    | some s₁ => mgrRun n b s₁ t

/-- N callers, feature neither loaded nor loading, counters zero. -/
def mgrInit (N : Nat) : MgrSmallState :=
  ⟨List.replicate N .notStarted, false, false, none, 0, 0⟩

/-- Whether an action is a caller's first synchronous block. -/
def MgrAct.isStart : MgrAct → Bool
  | .callerStart _ => true
  | _ => false

/-- No caller arrival in the schedule. -/
def startFree (t : List MgrAct) : Bool :=
  t.all (fun a => !a.isStart)

/-- All caller arrivals precede the settling of the in-flight load: the
claim's "calls arriving before it settles". -/
def startsBeforeSettle : List MgrAct → Bool
  | [] => true
  | .loaderSettles :: rest => startFree rest
  | _ :: rest => startsBeforeSettle rest

/-- Phase A: no caller has arrived. -/
def PhaseA (s : MgrSmallState) : Prop :=
  s.loaded = false ∧ s.loading = false ∧ s.outcome = none ∧
  s.loaderRuns = 0 ∧ s.registerRuns = 0 ∧ ∀ p ∈ s.callers, p = .notStarted

/-- Phase B: one load episode is in flight, loader pending. -/
def PhaseB (s : MgrSmallState) : Prop :=
  s.loaded = false ∧ s.loading = true ∧ s.outcome = none ∧
  s.loaderRuns = 1 ∧ s.registerRuns = 0 ∧
  ∀ p ∈ s.callers, p = .notStarted ∨ ∃ l, p = .awaiting l

/-- Phase C: the loader settled (and `register` ran if applicable), the
episode-starting caller has not yet run its continuation. -/
def PhaseC (n : String) (b : LoaderBehavior) (s : MgrSmallState) : Prop :=
  s.loaded = false ∧ s.loading = true ∧ s.outcome = some (episodeResult n b) ∧
  s.loaderRuns = 1 ∧ s.registerRuns = registerRunsOf b ∧
  ∀ p ∈ s.callers,
    p = .notStarted ∨ (∃ l, p = .awaiting l) ∨ p = .done (episodeResult n b)

/-- Phase D: the episode-starting caller ran lines 60-66. -/
def PhaseD (n : String) (b : LoaderBehavior) (s : MgrSmallState) : Prop :=
  s.loaded = (episodeResult n b == .ok) ∧ s.loading = false ∧
  s.outcome = some (episodeResult n b) ∧
  s.loaderRuns = 1 ∧ s.registerRuns = registerRunsOf b ∧
  ∀ p ∈ s.callers,
    p = .notStarted ∨ (∃ l, p = .awaiting l) ∨ p = .done (episodeResult n b)

/-- Reachability invariant of constrained runs. -/
def GoodPhase (n : String) (b : LoaderBehavior) (s : MgrSmallState) : Prop :=
  PhaseA s ∨ PhaseB s ∨ PhaseC n b s ∨ PhaseD n b s

theorem mgrStep_callers_length (n : String) (b : LoaderBehavior)
    (s : MgrSmallState) (a : MgrAct) (s' : MgrSmallState)
    (h : mgrStep n b s a = some s') :
    s'.callers.length = s.callers.length := by
  cases a with
  | callerStart i =>
    simp only [mgrStep] at h
    cases hg : s.callers.get? i with
    | none =>
      rw [hg] at h
      exact Option.noConfusion h
    | some p =>
      cases p <;> simp only [hg] at h
      · split at h <;> [skip; split at h] <;>
          (injection h with h; subst h; simp)
      · exact Option.noConfusion h
      · exact Option.noConfusion h
  | loaderSettles =>
    simp only [mgrStep] at h
    split at h
    · injection h with h
      subst h
      rfl
    · exact Option.noConfusion h
  | callerResume i =>
    simp only [mgrStep] at h
    cases hg : s.callers.get? i with
    | none =>
      rw [hg] at h
      exact Option.noConfusion h
    | some p =>
      cases p <;> simp only [hg] at h
      · exact Option.noConfusion h
      · cases ho : s.outcome with
        | none => simp only [ho] at h; exact Option.noConfusion h
        | some r =>
          simp only [ho] at h
          injection h with h
          subst h
          simp
      · exact Option.noConfusion h

theorem mgrRun_callers_length (n : String) (b : LoaderBehavior) :
    ∀ (t : List MgrAct) (s s' : MgrSmallState),
    mgrRun n b s t = some s' → s'.callers.length = s.callers.length := by
  intro t
  induction t with
  | nil =>
    intro s s' h
    injection h with h
    subst h
    rfl
  | cons a t ih =>
    intro s s' hrun
    simp only [mgrRun] at hrun
    cases hstep : mgrStep n b s a with
    | none => simp [hstep] at hrun
    | some s₁ =>
      simp only [hstep] at hrun
      rw [ih s₁ s' hrun, mgrStep_callers_length n b s a s₁ hstep]

theorem startFree_tail {a : MgrAct} {t : List MgrAct}
    (h : startFree (a :: t) = true) : startFree t = true := by
  simp only [startFree, List.all_cons, Bool.and_eq_true] at h ⊢
  exact h.2

theorem mgrRun_good (n : String) (b : LoaderBehavior) :
    ∀ (t : List MgrAct) (s s' : MgrSmallState),
    GoodPhase n b s →
    (s.outcome = none → startsBeforeSettle t = true) →
    (s.outcome ≠ none → startFree t = true) →
    mgrRun n b s t = some s' → GoodPhase n b s' := by
  intro t
  induction t with
  | nil =>
    intro s s' hG _ _ h
    injection h with h
    subst h
    exact hG
  | cons a t ih =>
    intro s s' hG hc1 hc2 hrun
    simp only [mgrRun] at hrun
    cases hstep : mgrStep n b s a with
    | none => simp [hstep] at hrun
    | some s₁ =>
      simp only [hstep] at hrun
      cases a with
      | callerStart i =>
        have houtc : s.outcome = none := by
          by_contra hne
          have h := hc2 hne
          simp [startFree, MgrAct.isStart] at h
        have hAB : PhaseA s ∨ PhaseB s := by
          rcases hG with h | h | h | h
          · exact Or.inl h
          · exact Or.inr h
          · have hx := h.2.2.1
            rw [houtc] at hx
            exact Option.noConfusion hx
          · have hx := h.2.2.1
            rw [houtc] at hx
            exact Option.noConfusion hx
        simp only [mgrStep] at hstep
        have hB₁ : PhaseB s₁ := by
          cases hg : s.callers.get? i with
          | none =>
            rw [hg] at hstep
            exact Option.noConfusion hstep
          | some p =>
            cases p <;> simp only [hg] at hstep
            · rcases hAB with hA | hB
              · rw [hA.1, hA.2.1] at hstep
                simp only [Bool.false_eq_true, if_false] at hstep
                injection hstep with hstep
                subst hstep
                refine ⟨rfl, rfl, rfl, by rw [hA.2.2.2.1], hA.2.2.2.2.1, ?_⟩
                intro p hp
                rcases List.mem_or_eq_of_mem_set hp with hp' | rfl
                · exact Or.inl (hA.2.2.2.2.2 p hp')
                · exact Or.inr ⟨true, rfl⟩
              · rw [hB.1, hB.2.1] at hstep
                simp only [Bool.false_eq_true, if_false, if_true] at hstep
                injection hstep with hstep
                subst hstep
                refine ⟨rfl, rfl, houtc, hB.2.2.2.1, hB.2.2.2.2.1, ?_⟩
                intro p hp
                rcases List.mem_or_eq_of_mem_set hp with hp' | rfl
                · exact hB.2.2.2.2.2 p hp'
                · exact Or.inr ⟨false, rfl⟩
            · exact Option.noConfusion hstep
            · exact Option.noConfusion hstep
        have houtc₁ : s₁.outcome = none := hB₁.2.2.1
        refine ih s₁ s' (Or.inr (Or.inl hB₁)) (fun _ => ?_)
          (fun h => absurd houtc₁ h) hrun
        have hx := hc1 houtc
        simpa [startsBeforeSettle] using hx
      | loaderSettles =>
        simp only [mgrStep] at hstep
        split at hstep
        case isTrue hcond =>
          obtain ⟨hld, hout⟩ := hcond
          have hB : PhaseB s := by
            rcases hG with h | h | h | h
            · have hx := h.2.1
              rw [hld] at hx
              exact Bool.noConfusion hx
            · exact h
            · have hx := h.2.2.1
              rw [hout] at hx
              exact Option.noConfusion hx
            · have hx := h.2.1
              rw [hld] at hx
              exact Bool.noConfusion hx
          injection hstep with hstep
          subst hstep
          have hC₁ : PhaseC n b
              { s with
                  outcome := some (episodeResult n b)
                  registerRuns := s.registerRuns + registerRunsOf b } := by
            refine ⟨hB.1, hB.2.1, rfl, hB.2.2.2.1,
              by rw [hB.2.2.2.2.1, Nat.zero_add], ?_⟩
            intro p hp
            rcases hB.2.2.2.2.2 p hp with h | h
            · exact Or.inl h
            · exact Or.inr (Or.inl h)
          have hsf : startFree t = true := by
            have hx := hc1 hout
            simpa [startsBeforeSettle] using hx
          exact ih _ s' (Or.inr (Or.inr (Or.inl hC₁)))
            (fun h => Option.noConfusion h) (fun _ => hsf) hrun
        case isFalse => exact Option.noConfusion hstep
      | callerResume i =>
        simp only [mgrStep] at hstep
        cases hg : s.callers.get? i with
        | none =>
          rw [hg] at hstep
          exact Option.noConfusion hstep
        | some p =>
          cases ho : s.outcome with
          | none =>
            simp only [hg, ho] at hstep
            cases p <;> exact Option.noConfusion hstep
          | some r =>
            cases p with
            | notStarted =>
              simp only [hg, ho] at hstep
              exact Option.noConfusion hstep
            | done r' =>
              simp only [hg, ho] at hstep
              exact Option.noConfusion hstep
            | awaiting ldr =>
              simp only [hg, ho] at hstep
              injection hstep with hstep
              subst hstep
              have hCD : PhaseC n b s ∨ PhaseD n b s := by
                rcases hG with h | h | h | h
                · have hx := h.2.2.1
                  rw [ho] at hx
                  exact Option.noConfusion hx
                · have hx := h.2.2.1
                  rw [ho] at hx
                  exact Option.noConfusion hx
                · exact Or.inl h
                · exact Or.inr h
              have hr : r = episodeResult n b := by
                rcases hCD with h | h
                · have hx := h.2.2.1
                  rw [ho] at hx
                  exact Option.some.inj hx
                · have hx := h.2.2.1
                  rw [ho] at hx
                  exact Option.some.inj hx
              subst hr
              have hcallers : ∀ p ∈ s.callers.set i (.done (episodeResult n b)),
                  p = .notStarted ∨ (∃ l, p = .awaiting l) ∨
                    p = .done (episodeResult n b) := by
                intro p hp
                rcases List.mem_or_eq_of_mem_set hp with hp' | rfl
                · rcases hCD with h | h
                  · exact h.2.2.2.2.2 p hp'
                  · exact h.2.2.2.2.2 p hp'
                · exact Or.inr (Or.inr rfl)
              have hG₁ : GoodPhase n b
                  { s with
                      callers := s.callers.set i (.done (episodeResult n b))
                      loaded := if ldr then episodeResult n b == .ok else s.loaded
                      loading := if ldr then false else s.loading
                      outcome := some (episodeResult n b) } := by
                cases ldr with
                | true =>
                  exact Or.inr (Or.inr (Or.inr ⟨by simp, by simp, rfl,
                    (hCD.elim (·.2.2.2.1) (·.2.2.2.1)),
                    (hCD.elim (·.2.2.2.2.1) (·.2.2.2.2.1)), hcallers⟩))
                | false =>
                  rcases hCD with h | h
                  · exact Or.inr (Or.inr (Or.inl ⟨by simpa using h.1,
                      by simpa using h.2.1, rfl, h.2.2.2.1, h.2.2.2.2.1, hcallers⟩))
                  · exact Or.inr (Or.inr (Or.inr ⟨by simpa using h.1,
                      by simpa using h.2.1, rfl, h.2.2.2.1, h.2.2.2.2.1, hcallers⟩))
              have hsf : startFree t = true :=
                startFree_tail (hc2 (by rw [ho]; exact fun h => Option.noConfusion h))
              exact ih _ s' hG₁ (fun h => absurd h (by simp))
                (fun _ => hsf) hrun

/-- Claim C1: single-flight de-duplication of concurrent callers.  For any
number N > 0 of concurrent `ensureFeatureLoaded(n)` callers on a
registered, dependency-free, unloaded feature, under every event-loop
interleaving in which all callers arrive before the in-flight load
settles, once every caller has settled: the feature's `loader()` ran
exactly once, its module's `register()` ran exactly once when the loader
produced a module (and never when the loader rejected or the module was
malformed), and all N callers observed the same outcome — all resolved on
success, or all rejected with the same error on failure.  Joining callers
share the single in-flight promise (the model's one shared `outcome`
cell); no second load starts. -/
theorem ensureFeatureLoaded_single_flight (n : String) (b : LoaderBehavior)
    (N : Nat) (t : List MgrAct) (s' : MgrSmallState)
    (hN : 0 < N)
    (hconc : startsBeforeSettle t = true)
    (hrun : mgrRun n b (mgrInit N) t = some s')
    (hdone : ∀ p ∈ s'.callers, p.isDone = true) :
    s'.loaderRuns = 1 ∧ s'.registerRuns = registerRunsOf b ∧
    ∀ p ∈ s'.callers, p = .done (episodeResult n b) := by
  have hA : GoodPhase n b (mgrInit N) :=
    Or.inl ⟨rfl, rfl, rfl, rfl, rfl, fun p hp => List.eq_of_mem_replicate hp⟩
  have hG := mgrRun_good n b t (mgrInit N) s' hA (fun _ => hconc)
    (fun h => absurd rfl h) hrun
  have hlen : s'.callers.length = N := by
    have h := mgrRun_callers_length n b t (mgrInit N) s' hrun
    simpa [mgrInit] using h
  obtain ⟨p₀, hp₀⟩ : ∃ p, p ∈ s'.callers := by
    cases hcall : s'.callers with
    | nil =>
      rw [hcall] at hlen
      simp at hlen
      omega
    | cons q l => exact ⟨q, List.mem_cons_self _ _⟩
  rcases hG with h | h | h | h
  · have hq := h.2.2.2.2.2 p₀ hp₀
    have hd := hdone p₀ hp₀
    rw [hq] at hd
    simp [CallerPhase.isDone] at hd
  · rcases h.2.2.2.2.2 p₀ hp₀ with hq | ⟨l, hq⟩ <;>
      · have hd := hdone p₀ hp₀
        rw [hq] at hd
        simp [CallerPhase.isDone] at hd
  · refine ⟨h.2.2.2.1, h.2.2.2.2.1, ?_⟩
    intro p hp
    rcases h.2.2.2.2.2 p hp with hq | ⟨l, hq⟩ | hq
    · have hd := hdone p hp
      rw [hq] at hd
      simp [CallerPhase.isDone] at hd
    · have hd := hdone p hp
      rw [hq] at hd
      simp [CallerPhase.isDone] at hd
    · exact hq
  · refine ⟨h.2.2.2.1, h.2.2.2.2.1, ?_⟩
    intro p hp
    rcases h.2.2.2.2.2 p hp with hq | ⟨l, hq⟩ | hq
    · have hd := hdone p hp
      rw [hq] at hd
      simp [CallerPhase.isDone] at hd
    · have hd := hdone p hp
      rw [hq] at hd
      simp [CallerPhase.isDone] at hd
    · exact hq

/-! ## Concrete witness fixtures -/

/-- Witness registry: `auth` (no dependencies), `user` (depends on
`auth`), `chat` (depends on the never-registered `ghost`). -/
def wReg : FeatureRegistry :=
  ((FeatureRegistry.empty.register { name := "auth", loader := 1 }).register
    { name := "user", loader := 2, dependencies := some ["auth"] }).register
    { name := "chat", loader := 3, dependencies := some ["ghost"] }

/-- Every loader resolves to a well-formed module that registers fine. -/
def wEnvOk : LoaderEnv := fun _ _ => .moduleOk

/-- First invocation yields a module whose `register` throws; later
invocations succeed. -/
def wEnvRetry : LoaderEnv := fun _ k => if k = 0 then .moduleThrows 7 else .moduleOk

/-- Every loader resolves to a value without a callable `register`. -/
def wEnvMal : LoaderEnv := fun _ _ => .malformed

/-- Final state of `ensureFeatureLoaded wEnvOk wReg 5 "user" LState.init`. -/
def wUserFinal : LState :=
  ⟨["user", "auth"], [], ["auth", "user"], ["auth", "user"],
   [.loaderInvoked "auth" [] ["auth", "user"],
    .registerInvoked "auth" [] ["auth", "user"],
    .addedLoaded "auth" [] ["auth", "user"],
    .loaderInvoked "user" ["auth"] ["user"],
    .registerInvoked "user" ["auth"] ["user"],
    .addedLoaded "user" ["auth"] ["user"]]⟩

/-- Per-name results of preloading `["ghost", "auth"]`. -/
def wPreloadResults : List LoadResult :=
  [.error (.unknownFeature "ghost" ["auth", "user", "chat"]), .ok]

/-- Final state of preloading `["ghost", "auth"]` from the initial
state: the aggregate rejected, yet `auth` is loaded. -/
def wPreloadFinal : LState :=
  ⟨["auth"], [], ["auth"], ["auth"],
   [.loaderInvoked "auth" [] ["auth"],
    .registerInvoked "auth" [] ["auth"],
    .addedLoaded "auth" [] ["auth"]]⟩

/-- State after the failed first retry-scenario episode of `auth`. -/
def wRetryMid : LState :=
  ⟨[], [], ["auth"], ["auth"],
   [.loaderInvoked "auth" [] ["auth"], .registerInvoked "auth" [] ["auth"]]⟩

/-- State after the failed malformed-module episode of `auth`. -/
def wMalFinal : LState :=
  ⟨[], [], ["auth"], [], [.loaderInvoked "auth" [] ["auth"]]⟩

/-- Schedule for the single-flight witness: both callers arrive, the load
settles, both resume. -/
def wSched : List MgrAct :=
  [.callerStart 0, .callerStart 1, .loaderSettles, .callerResume 0, .callerResume 1]

/-- Final small-step state of the single-flight witness. -/
def wSmallFinal : MgrSmallState :=
  ⟨[.done .ok, .done .ok], true, false, some .ok, 1, 1⟩

/-- Claim C2 witness: loading `user` (which depends on `auth`) concretely;
every recorded instant has the transitive dependencies loaded. -/
theorem ensureFeatureLoaded_dependency_order_witness :
    (MgrInv wReg LState.init ∧
      ensureFeatureLoaded wEnvOk wReg 5 "user" LState.init = some (wUserFinal, .ok)) ∧
    ((∀ e ∈ wUserFinal.events, ∀ d, DependsOn wReg e.fname d → d ∈ e.loadedSnap) ∧
      DepsClosed wReg wUserFinal.loadedFeatures) :=
  ⟨⟨by decide, by decide⟩,
    ensureFeatureLoaded_dependency_order wEnvOk wReg 5 "user" LState.init wUserFinal
      .ok (by decide) (by decide)⟩

/-- Claim C4 witness: the same concrete run; exclusivity at every recorded
instant and monotone `loadedFeatures`. -/
theorem featureManager_state_exclusive_witness :
    (MgrInv wReg LState.init ∧
      ensureFeatureLoaded wEnvOk wReg 5 "user" LState.init = some (wUserFinal, .ok)) ∧
    ((∀ e ∈ wUserFinal.events, ∀ x ∈ e.loadingSnap, x ∉ e.loadedSnap) ∧
      (∀ x ∈ wUserFinal.loadingFeatures, x ∉ wUserFinal.loadedFeatures) ∧
      LState.init.loadedFeatures ⊆ wUserFinal.loadedFeatures) :=
  ⟨⟨by decide, by decide⟩,
    featureManager_state_exclusive.1 wEnvOk wReg 5 "user" LState.init wUserFinal
      .ok (by decide) (by decide)⟩

/-- Claim C7 witness: preloading `["ghost", "auth"]` where `ghost` is
unregistered: the aggregate rejects while the independent `auth` still
ends up in `loadedFeatures`. -/
theorem preloadFeatures_spec_witness :
    (MgrInv wReg LState.init ∧
      ensureAllFeatures wEnvOk wReg 4 ["ghost", "auth"] LState.init =
        some (wPreloadFinal, wPreloadResults)) ∧
    (preloadFeatures wEnvOk wReg 4 ["ghost", "auth"] LState.init =
        some (wPreloadFinal, firstError wPreloadResults) ∧
      (firstError wPreloadResults = .ok ↔ ∀ r ∈ wPreloadResults, r = .ok) ∧
      wPreloadResults.length = (["ghost", "auth"] : List String).length ∧
      (∀ (i : Nat) (h₁ : i < (["ghost", "auth"] : List String).length)
         (h₂ : i < wPreloadResults.length),
        wPreloadResults.get ⟨i, h₂⟩ = .ok →
        (["ghost", "auth"] : List String).get ⟨i, h₁⟩ ∈
          wPreloadFinal.loadedFeatures)) :=
  ⟨⟨by decide, by decide⟩,
    preloadFeatures_spec wEnvOk wReg 4 ["ghost", "auth"] LState.init
      wPreloadFinal wPreloadResults (by decide) (by decide)⟩

/-- Claim C5 witness: `ghost` is unknown — the error enumerates
`["auth", "user", "chat"]`; `chat` (depending on `ghost`) rejects with
that error and stays unloaded; the message embeds the enumeration. -/
theorem ensureFeatureLoaded_unknown_feature_witness :
    ((wReg.get "ghost" = none ∧ "ghost" ∉ LState.init.loadedFeatures) ∧
      ensureFeatureLoaded wEnvOk wReg (0 + 2) "ghost" LState.init =
        some (LState.init, .error (.unknownFeature "ghost" wReg.getAll))) ∧
    (((.error (.unknownFeature "ghost" wReg.getAll) : LoadResult) =
        .error (.unknownFeature "ghost" wReg.getAll) ∧
      "chat" ∉ LState.init.loadedFeatures)) ∧
    (∃ pre post, loadErrorMessage (.unknownFeature "ghost" wReg.getAll) =
      pre ++ String.intercalate ", " wReg.getAll ++ post) :=
  ⟨⟨⟨by decide, by decide⟩,
      ensureFeatureLoaded_unknown_feature.1 wEnvOk wReg 0 "ghost" LState.init
        (by decide) (by decide) (by decide)⟩,
    ensureFeatureLoaded_unknown_feature.2.1 wEnvOk wReg 0 "chat"
      { name := "chat", loader := 3, dependencies := some ["ghost"] } "ghost" []
      LState.init LState.init (.error (.unknownFeature "ghost" wReg.getAll))
      (by decide) (by decide) (by decide) (by decide) (by decide) (by decide)
      (by decide) (by decide) (by decide) (by decide),
    ensureFeatureLoaded_unknown_feature.2.2 "ghost" wReg.getAll (by decide)⟩

/-- Claim C3 witness: `auth` whose `register` throws on the first
invocation: the failed call leaves it in neither set, and the second call
re-invokes the loader and succeeds. -/
theorem ensureFeatureLoaded_failure_is_retriable_witness :
    ((MgrInv wReg LState.init ∧ "auth" ∉ LState.init.loadingFeatures ∧
        ensureFeatureLoaded wEnvRetry wReg 3 "auth" LState.init =
          some (wRetryMid, .error (.registerThrew "auth" 7))) ∧
      ("auth" ∉ wRetryMid.loadedFeatures ∧ "auth" ∉ wRetryMid.loadingFeatures ∧
        wRetryMid.loadingFeatures = LState.init.loadingFeatures)) ∧
    (∃ s₁ s₂,
      ensureFeatureLoaded wEnvRetry wReg (0 + 3) "auth" LState.init =
        some (s₁, .error (.registerThrew "auth" 7)) ∧
      "auth" ∉ s₁.loadedFeatures ∧ "auth" ∉ s₁.loadingFeatures ∧
      s₁.loaderCalls.count "auth" = 1 ∧
      ensureFeatureLoaded wEnvRetry wReg (0 + 3) "auth" s₁ = some (s₂, .ok) ∧
      "auth" ∈ s₂.loadedFeatures ∧ s₂.loaderCalls.count "auth" = 2) :=
  ⟨⟨⟨by decide, by decide, by decide⟩,
      ensureFeatureLoaded_failure_is_retriable.1 wEnvRetry wReg 3 "auth"
        LState.init wRetryMid (.registerThrew "auth" 7)
        (by decide) (by decide) (by decide)⟩,
    ensureFeatureLoaded_failure_is_retriable.2 wEnvRetry wReg 0 "auth"
      { name := "auth", loader := 1 } 7 (by decide) (by decide)
      (by decide) (by decide)⟩

/-- Claim C6 witness: `auth` with a loader resolving to a value without a
callable `register`: the load fails with the malformed-module error,
`register` never runs, `auth` is not loaded. -/
theorem loadFeature_malformed_module_witness :
    ((MgrInv wReg LState.init ∧
        ensureFeatureLoaded wEnvMal wReg 3 "auth" LState.init =
          some (wMalFinal, .error (.malformedModule "auth"))) ∧
      ((∃ e, (.error (.malformedModule "auth") : LoadResult) = .error e) ∧
        "auth" ∉ wMalFinal.loadedFeatures ∧
        wMalFinal.registerCalls.count "auth" =
          LState.init.registerCalls.count "auth")) ∧
    (∃ s', ensureFeatureLoaded wEnvMal wReg (1 + 2) "auth" LState.init =
        some (s', .error (.malformedModule "auth")) ∧
      "auth" ∉ s'.loadedFeatures ∧
      s'.registerCalls = LState.init.registerCalls) ∧
    loadErrorMessage (.malformedModule "auth") =
      "[FeatureManager] Feature \"" ++ "auth" ++ "\" module is invalid. " ++
      "It must export an object with a 'register' function." :=
  ⟨⟨⟨by decide, by decide⟩,
      loadFeature_malformed_module.1 wEnvMal wReg 3 "auth" LState.init wMalFinal
        (.error (.malformedModule "auth")) (by decide) (fun _ => rfl)
        (by decide) (by decide) (by decide)⟩,
    loadFeature_malformed_module.2.1 wEnvMal wReg 1 "auth"
      { name := "auth", loader := 1 } LState.init (by decide) (by decide)
      (fun _ => rfl) (by decide) (by decide),
    loadFeature_malformed_module.2.2 "auth"⟩

/-- Claim C1 witness: two concurrent callers of `user`, both arriving
before the load settles: one loader run, one register run, both resolve. -/
theorem ensureFeatureLoaded_single_flight_witness :
    (0 < 2 ∧ startsBeforeSettle wSched = true ∧
      mgrRun "user" .moduleOk (mgrInit 2) wSched = some wSmallFinal ∧
      (∀ p ∈ wSmallFinal.callers, p.isDone = true)) ∧
    (wSmallFinal.loaderRuns = 1 ∧
      wSmallFinal.registerRuns = registerRunsOf .moduleOk ∧
      ∀ p ∈ wSmallFinal.callers, p = .done (episodeResult "user" .moduleOk)) :=
  ⟨⟨by decide, by decide, by decide, by decide⟩,
    ensureFeatureLoaded_single_flight "user" .moduleOk 2 wSched wSmallFinal
      (by decide) (by decide) (by decide) (by decide)⟩
